import Mathlib

/-!
Shallow embedding of the tiered cache manager in
src/ripple/data_access/cache_manager.py (classes MemoryCache and
EnhancedCacheManager), followed by theorems settling the claims about it.

Modelling conventions:
  - Python values stored in the cache are PyVal := Option Nat, where
    Option.none models the Python None sentinel and some n models any
    non-None payload (payloads abstracted as naturals).
  - Timestamps and durations (time.time values and ttl arguments) are
    integers; the float infinity used as a "never expires" expiry is
    modelled by an Option Int expiry field with none standing for infinity.
  - The memory store is an association list ordered oldest-first, mirroring
    the OrderedDict: popitem(last=False) removes the head, dict assignment
    updates an existing key in place (keeping its position) and appends a
    new key at the end.
  - The disk tier is an association list from key strings to DiskFile;
    DiskFile.corrupt models a file whose open or pickle.load raises
    (unreadable or undeserializable), DiskFile.record models a pickled
    dict with fields data, cached_at and an optional ttl key.
  - Filesystem write failure is modelled by the Manager field
    diskWriteFails: when true, the open or pickle.dump inside
    save_to_disk raises and the except branch swallows the error.
-/

/-- Python cached values: none is the Python None sentinel. -/
abbrev PyVal := Option Nat

/-- Python truthiness of an optional numeric ttl argument:
None and 0 are falsy, every other number is truthy. -/
def truthy : Option Int → Bool
  | none => false
  | some x => x != 0

/-- Dictionary lookup on an association list (first match wins). -/
def lookupKey {α : Type} : List (String × α) → String → Option α
  | [], _ => none
  | (k', v) :: rest, k => if k' = k then some v else lookupKey rest k

/-- Dictionary assignment d[k] = v on an ordered association list:
an existing key is updated in place keeping its position, a new key is
appended at the end (OrderedDict semantics). -/
def updateAssoc {α : Type} : List (String × α) → String → α → List (String × α)
  | [], k, v => [(k, v)]
  | (k', v') :: rest, k, v =>
      if k' = k then (k, v) :: rest else (k', v') :: updateAssoc rest k v

/-- Removal of a key from an association list (os.remove of the file). -/
def eraseKey {α : Type} (l : List (String × α)) (k : String) : List (String × α) :=
  l.filter (fun p => p.1 != k)

/-- State of class MemoryCache: max_size, the OrderedDict cache mapping
keys to (value, expiry) pairs ordered oldest-first, and the hit and miss
counters.  An expiry of none models float infinity. -/
structure MemoryCache where
  max_size : Nat
  cache : List (String × (PyVal × Option Int))
  hits : Nat
  misses : Nat
deriving DecidableEq, Repr

/-- MemoryCache.get: on a hit the entry is popped and re-appended at the
end (marked most recently used), hits is incremented and the stored value
returned; on a miss, misses is incremented and None returned.  No expiry
check is performed here. -/
def MemoryCache.get (c : MemoryCache) (k : String) : PyVal × MemoryCache :=
  match lookupKey c.cache k with
  | some v =>
      (v.1, { c with cache := eraseKey c.cache k ++ [(k, v)], hits := c.hits + 1 })
  | none => (none, { c with misses := c.misses + 1 })

/-- MemoryCache.put: expiry is now + ttl when ttl is truthy, else
infinity; when the store already holds at least max_size entries the
oldest entry is popped first (popitem last=False, regardless of whether k
is already present); then the dict assignment inserts or overwrites k. -/
def MemoryCache.put (c : MemoryCache) (k : String) (v : PyVal)
    (ttl : Option Int) (now : Int) : MemoryCache :=
  let expiry : Option Int :=
    if truthy ttl then some (now + ttl.getD 0) else none
  let cache1 :=
    if c.cache.length ≥ c.max_size then c.cache.tail else c.cache
  { c with cache := updateAssoc cache1 k (v, expiry) }

/-- MemoryCache.clear: empties the store and zeroes both counters. -/
def MemoryCache.clear (c : MemoryCache) : MemoryCache :=
  { c with cache := [], hits := 0, misses := 0 }

/-- One on-disk cache file: either bytes whose read or deserialization
raises, or a pickled record with data, cached_at and an optional ttl
key. -/
inductive DiskFile where
  | corrupt : DiskFile
  | record (data : PyVal) (cached_at : Int) (ttl : Option Int) : DiskFile
deriving DecidableEq, Repr

/-- Manager-level statistics dictionary of EnhancedCacheManager. -/
structure CacheStats where
  memory_hits : Nat
  disk_hits : Nat
  misses : Nat
  evictions : Nat
deriving DecidableEq, Repr

/-- State of class EnhancedCacheManager: the memory tier, the disk
directory as a map from keys to files, the disk_cache_enabled flag, the
statistics dictionary, and a flag modelling a filesystem on which writes
raise. -/
structure Manager where
  memory_cache : MemoryCache
  disk : List (String × DiskFile)
  disk_cache_enabled : Bool
  diskWriteFails : Bool
  stats : CacheStats
deriving DecidableEq, Repr

/-- A freshly constructed EnhancedCacheManager with the given
max_memory_items: empty memory tier, empty disk directory, disk cache
enabled, all statistics zero. -/
def initManager (maxItems : Nat) : Manager :=
  { memory_cache := ⟨maxItems, [], 0, 0⟩
    disk := []
    disk_cache_enabled := true
    diskWriteFails := false
    stats := ⟨0, 0, 0, 0⟩ }

/-- Stand-in for the hashlib.md5 hexdigest used by the key derivation:
a deterministic rolling hash of the input string rendered in decimal.
Every claim about keys depends only on the digest being a function of
the input string, never on md5 internals. -/
def md5hex (s : String) : String :=
  toString (s.data.foldl (fun h c => (h * 131 + c.toNat) % (2 ^ 128)) 0)

/-- Textual form of the positional argument tuple, str(args).  Arguments
are modelled by their textual forms. -/
def renderArgs (args : List String) : String :=
  "(" ++ String.intercalate ", " args ++ ")"

/-- Textual form of a list of (name, value) keyword items,
str(list of pairs). -/
def renderKw (kw : List (String × String)) : String :=
  "[" ++ String.intercalate ", " (kw.map (fun p => "(" ++ p.1 ++ ", " ++ p.2 ++ ")")) ++ "]"

/-- The order in which Python sorted() arranges (name, value) keyword
items: lexicographic comparison, name first, value on ties. -/
def kwLe (a b : String × String) : Prop :=
  a.1 < b.1 ∨ (a.1 = b.1 ∧ a.2 ≤ b.2)

instance : DecidableRel kwLe := fun a b => by
  unfold kwLe; exact inferInstance

instance : IsTrans (String × String) kwLe where
  trans a b c hab hbc := by
    rcases hab with h1 | ⟨e1, l1⟩
    · rcases hbc with h2 | ⟨e2, _⟩
      · exact Or.inl (lt_trans h1 h2)
      · exact Or.inl (e2 ▸ h1)
    · rcases hbc with h2 | ⟨e2, l2⟩
      · exact Or.inl (e1 ▸ h2)
      · exact Or.inr ⟨e1.trans e2, le_trans l1 l2⟩

instance : IsAntisymm (String × String) kwLe where
  antisymm a b hab hba := by
    rcases hab with h1 | ⟨e1, l1⟩
    · rcases hba with h2 | ⟨e2, _⟩
      · exact absurd h2 (lt_asymm h1)
      · exact absurd (e2 ▸ h1) (lt_irrefl _)
    · rcases hba with h2 | ⟨_, l2⟩
      · exact absurd (e1 ▸ h2) (lt_irrefl _)
      · exact Prod.ext e1 (le_antisymm l1 l2)

instance : IsTotal (String × String) kwLe where
  total a b := by
    rcases lt_trichotomy a.1 b.1 with h | h | h
    · exact Or.inl (Or.inl h)
    · rcases le_total a.2 b.2 with l | l
      · exact Or.inl (Or.inr ⟨h, l⟩)
      · exact Or.inr (Or.inr ⟨h.symm, l⟩)
    · exact Or.inr (Or.inl h)

/-- The string str(args) + str(sorted(kwargs.items())) that
EnhancedCacheManager private method get_cache_key digests. -/
def cacheKeyData (args : List String) (kw : List (String × String)) : String :=
  renderArgs args ++ renderKw (List.insertionSort kwLe kw)

/-- EnhancedCacheManager private method get_cache_key: md5 hexdigest of
the rendered arguments. -/
def cacheKey (args : List String) (kw : List (String × String)) : String :=
  md5hex (cacheKeyData args kw)

/-- EnhancedCacheManager private method load_from_disk at time now:
a missing file or a disabled disk tier yields None; a file whose read or
deserialization raises yields None with the file left in place (the
exception is caught and logged); a record whose ttl key is present and
passed is removed from disk and yields None; otherwise disk_hits is
incremented and the data field returned. -/
def Manager.loadFromDisk (m : Manager) (key : String) (now : Int) :
    PyVal × Manager :=
  if !m.disk_cache_enabled then (none, m)
  else
    match lookupKey m.disk key with
    | none => (none, m)
    | some DiskFile.corrupt => (none, m)
    | some (DiskFile.record data _ca ttl) =>
        match ttl with
        | some t =>
            if now > t then (none, { m with disk := eraseKey m.disk key })
            else
              (data, { m with stats :=
                { m.stats with disk_hits := m.stats.disk_hits + 1 } })
        | none =>
            (data, { m with stats :=
              { m.stats with disk_hits := m.stats.disk_hits + 1 } })

/-- EnhancedCacheManager private method save_to_disk at time now: a
disabled disk tier is a no-op; a raising write is swallowed (logged at
error level) leaving the disk unchanged; otherwise the record written
has cached_at = now and a ttl field equal to the raw ttl argument when
truthy, and to now + 86400 otherwise. -/
def Manager.saveToDisk (m : Manager) (key : String) (data : PyVal)
    (ttl : Option Int) (now : Int) : Manager :=
  if !m.disk_cache_enabled then m
  else if m.diskWriteFails then m
  else
    let t : Int := if truthy ttl then ttl.getD 0 else now + 86400
    { m with disk := updateAssoc m.disk key (DiskFile.record data now (some t)) }

/-- EnhancedCacheManager.get at time now: derive the key, try the memory
tier (counting a memory hit when a non-None value comes back), fall back
to the disk tier (promoting a non-None disk value into memory with no
ttl), otherwise count a miss and return None. -/
def Manager.get (m : Manager) (args : List String)
    (kw : List (String × String)) (now : Int) : PyVal × Manager :=
  let key := cacheKey args kw
  let step1 := m.memory_cache.get key
  let m1 := { m with memory_cache := step1.2 }
  if step1.1.isSome then
    (step1.1, { m1 with stats :=
      { m1.stats with memory_hits := m1.stats.memory_hits + 1 } })
  else
    let step2 := m1.loadFromDisk key now
    if step2.1.isSome then
      (step2.1, { step2.2 with
        memory_cache := step2.2.memory_cache.put key step2.1 none now })
    else
      (none, { step2.2 with stats :=
        { step2.2.stats with misses := step2.2.stats.misses + 1 } })

/-- EnhancedCacheManager.put at time now: derive the key, always insert
into the memory tier with an effective ttl of the requested ttl when it
is truthy and below 3600 seconds and of 3600 seconds otherwise, then,
when persist_to_disk is set and the requested ttl truthy, also write the
disk record. -/
def Manager.put (m : Manager) (data : PyVal) (ttl : Option Int)
    (persist_to_disk : Bool) (args : List String)
    (kw : List (String × String)) (now : Int) : Manager :=
  let key := cacheKey args kw
  let memory_ttl : Int :=
    match ttl with
    | some d => if d != 0 && d < 3600 then d else 3600
    | none => 3600
  let m1 := { m with
    memory_cache := m.memory_cache.put key data (some memory_ttl) now }
  if persist_to_disk && truthy ttl then m1.saveToDisk key data ttl now
  else m1

/-- EnhancedCacheManager.clear_memory: clears only the memory tier. -/
def Manager.clearMemory (m : Manager) : Manager :=
  { m with memory_cache := m.memory_cache.clear }

/-- EnhancedCacheManager.clear_all: clears the memory tier and removes
every .cache file from the disk directory.  The manager statistics
dictionary is not touched. -/
def Manager.clearAll (m : Manager) : Manager :=
  { m with memory_cache := m.memory_cache.clear, disk := [] }

/-- The per-file predicate of EnhancedCacheManager.optimize_cache: a
file is kept when it deserializes and its ttl (defaulting to infinity
when the key is absent) has not passed; an expired or raising file is
removed. -/
def keepFile (now : Int) : DiskFile → Bool
  | DiskFile.corrupt => false
  | DiskFile.record _ _ ttl =>
      match ttl with
      | some t => !(now > t)
      | none => true

/-- EnhancedCacheManager.optimize_cache at time now: scans every file in
the disk directory, removing the expired and the corrupted ones.  Memory
tier and statistics are untouched. -/
def Manager.optimize (m : Manager) (now : Int) : Manager :=
  { m with disk := m.disk.filter (fun p => keepFile now p.2) }

/-- EnhancedCacheManager.get_cache_stats only reads state; as a state
transformer it is the identity.  Modelled explicitly so that the claim
that no public operation resets the manager counters ranges over it. -/
def Manager.getCacheStats (m : Manager) : Manager := m

/-- The public operations of the cache manager, each carrying the
time.time() value at which it runs. -/
inductive Op where
  | get (args : List String) (kw : List (String × String)) (t : Int) : Op
  | put (data : PyVal) (ttl : Option Int) (persist_to_disk : Bool)
        (args : List String) (kw : List (String × String)) (t : Int) : Op
  | clearMemory : Op
  | clearAll : Op
  | optimize (t : Int) : Op
  | getCacheStats : Op

/-- State transformer of one public operation. -/
def Op.apply : Op → Manager → Manager
  | Op.get args kw t, m => (m.get args kw t).2
  | Op.put data ttl p args kw t, m => m.put data ttl p args kw t
  | Op.clearMemory, m => m.clearMemory
  | Op.clearAll, m => m.clearAll
  | Op.optimize t, m => m.optimize t
  | Op.getCacheStats, m => m.getCacheStats

/-- The operations of the memory tier alone, used to state the size
invariant of MemoryCache. -/
inductive MemOp where
  | get (k : String) : MemOp
  | put (k : String) (v : PyVal) (ttl : Option Int) (t : Int) : MemOp
  | clear : MemOp

/-- State transformer of one memory-tier operation. -/
def MemOp.apply : MemOp → MemoryCache → MemoryCache
  | MemOp.get k, c => (c.get k).2
  | MemOp.put k v ttl t, c => c.put k v ttl t
  | MemOp.clear, c => c.clear

/-- Folding a sequence of memory-tier operations from a starting
state. -/
def runMemOps (c : MemoryCache) : List MemOp → MemoryCache
  | [] => c
  | op :: rest => runMemOps (op.apply c) rest

/-! Helper lemmas about the association-list dictionary operations. -/

theorem lookupKey_updateAssoc_self {α : Type} (l : List (String × α))
    (k : String) (v : α) : lookupKey (updateAssoc l k v) k = some v := by
  induction l with
  | nil => simp [updateAssoc, lookupKey]
  | cons p rest ih =>
      obtain ⟨k', v'⟩ := p
      simp only [updateAssoc]
      by_cases h : k' = k
      · simp [h, lookupKey]
      · simp [h, lookupKey, ih]

theorem lookupKey_updateAssoc_ne {α : Type} (l : List (String × α))
    (k k' : String) (v : α) (h : k' ≠ k) :
    lookupKey (updateAssoc l k v) k' = lookupKey l k' := by
  have hne : k ≠ k' := fun e => h e.symm
  induction l with
  | nil => simp [updateAssoc, lookupKey, hne]
  | cons p rest ih =>
      obtain ⟨k0, v0⟩ := p
      simp only [updateAssoc]
      by_cases hk : k0 = k
      · subst hk
        simp [lookupKey, hne]
      · simp only [if_neg hk, lookupKey]
        by_cases hq : k0 = k'
        · simp [hq]
        · simp [hq, ih]

theorem length_updateAssoc_le {α : Type} (l : List (String × α))
    (k : String) (v : α) : (updateAssoc l k v).length ≤ l.length + 1 := by
  induction l with
  | nil => simp [updateAssoc]
  | cons p rest ih =>
      obtain ⟨k0, v0⟩ := p
      simp only [updateAssoc]
      by_cases h : k0 = k
      · simp [h]
      · simpa [h] using Nat.succ_le_succ ih

theorem length_eraseKey_succ_le {α : Type} (l : List (String × α))
    (k : String) (h : (lookupKey l k).isSome) :
    (eraseKey l k).length + 1 ≤ l.length := by
  induction l with
  | nil => simp [lookupKey] at h
  | cons p rest ih =>
      obtain ⟨k0, v0⟩ := p
      by_cases hk : k0 = k
      · have h1 : eraseKey ((k0, v0) :: rest) k = eraseKey rest k := by
          simp [eraseKey, List.filter_cons, hk]
        have h2 : (eraseKey rest k).length ≤ rest.length :=
          List.length_filter_le _ _
        rw [h1]
        simpa using Nat.succ_le_succ h2
      · have hrest : (lookupKey rest k).isSome := by
          simpa [lookupKey, hk] using h
        have h1 : eraseKey ((k0, v0) :: rest) k = (k0, v0) :: eraseKey rest k := by
          simp [eraseKey, List.filter_cons, hk]
        rw [h1]
        simpa using Nat.succ_le_succ (ih hrest)

theorem Manager.saveToDisk_memory (m : Manager) (k : String) (d : PyVal)
    (ttl : Option Int) (t : Int) :
    (m.saveToDisk k d ttl t).memory_cache = m.memory_cache := by
  unfold Manager.saveToDisk
  split
  · rfl
  · split <;> rfl

theorem Manager.saveToDisk_stats (m : Manager) (k : String) (d : PyVal)
    (ttl : Option Int) (t : Int) :
    (m.saveToDisk k d ttl t).stats = m.stats := by
  unfold Manager.saveToDisk
  split
  · rfl
  · split <;> rfl

theorem Manager.put_memory (m : Manager) (data : PyVal) (ttl : Option Int)
    (p : Bool) (args : List String) (kw : List (String × String)) (t : Int) :
    (m.put data ttl p args kw t).memory_cache =
      m.memory_cache.put (cacheKey args kw) data
        (some (match ttl with
               | some d => if d != 0 && d < 3600 then d else 3600
               | none => 3600)) t := by
  simp only [Manager.put]
  by_cases hp : (p && truthy ttl) = true <;>
    simp [hp, Manager.saveToDisk_memory]

theorem Manager.put_stats (m : Manager) (data : PyVal) (ttl : Option Int)
    (p : Bool) (args : List String) (kw : List (String × String)) (t : Int) :
    (m.put data ttl p args kw t).stats = m.stats := by
  simp only [Manager.put]
  by_cases hp : (p && truthy ttl) = true <;>
    simp [hp, Manager.saveToDisk_stats]

/-- The effective memory ttl computed by Manager.put is never zero, so
the memory-tier expiry it produces is always finite. -/
theorem memory_ttl_truthy (ttl : Option Int) :
    truthy (some (match ttl with
                  | some d => if d != 0 && d < 3600 then d else 3600
                  | none => 3600)) = true := by
  match ttl with
  | none => simp [truthy]
  | some d =>
      by_cases h : d != 0 && d < 3600
      · simp only [h, if_pos rfl, truthy]
        have h2 := h
        rw [Bool.and_eq_true] at h2
        exact h2.1
      · simp [truthy, h]

/-! Theorems settling the claims. -/

/-- Claim C1: the spec says a put with a supplied ttl d writes a disk
record whose ttl field is the absolute expiry instant now + d, read back
as expired exactly when the clock passes write time plus d.  The code
instead stores the raw duration d in the ttl field (save_to_disk writes
ttl unchanged when truthy, while its own no-ttl default now + 86400 and
the expiry comparison in load_from_disk both treat the field as an
absolute instant), so a record written at time 1000000 with ttl 7200 is
judged expired one second later and deleted. -/
theorem C1_disk_ttl_stored_as_duration :
    lookupKey ((initManager 10).put (some 42) (some 7200) true ["x"] [] 1000000).disk
        (cacheKey ["x"] [])
      = some (DiskFile.record (some 42) 1000000 (some 7200)) ∧
    some (7200 : Int) ≠ some ((1000000 : Int) + 7200) ∧
    (((initManager 10).put (some 42) (some 7200) true ["x"] [] 1000000).loadFromDisk
        (cacheKey ["x"] []) 1000001).1 = none ∧
    lookupKey (((initManager 10).put (some 42) (some 7200) true ["x"] [] 1000000).loadFromDisk
        (cacheKey ["x"] []) 1000001).2.disk (cacheKey ["x"] []) = none := by
  decide

/-- Claim C3, counterexample: with max_size 2 and both keys a and b
present (store at capacity), overwriting the already present key b
evicts the other entry a, refuting the claim that overwriting a present
key never removes any other entry. -/
theorem C3_counterexample :
    (lookupKey ((⟨2, [("a", (some 1, none)), ("b", (some 2, none))], 0, 0⟩ :
        MemoryCache).cache) "b").isSome = true ∧
    (lookupKey ((⟨2, [("a", (some 1, none)), ("b", (some 2, none))], 0, 0⟩ :
        MemoryCache).cache) "a").isSome = true ∧
    ((⟨2, [("a", (some 1, none)), ("b", (some 2, none))], 0, 0⟩ :
        MemoryCache).cache).length = 2 ∧
    lookupKey ((⟨2, [("a", (some 1, none)), ("b", (some 2, none))], 0, 0⟩ :
        MemoryCache).put "b" (some 3) none 5).cache "a" = none := by
  decide

/-- Claim C3 as amended: MemoryCache.put evicts the oldest
(least-recently-used) entry exactly when the store already holds at
least max_size entries, regardless of whether the written key is
already present; below capacity no other entry is touched, and each put
removes at most that single oldest entry. -/
theorem C3_put_evicts_head_iff_at_capacity (c : MemoryCache) (k : String)
    (v : PyVal) (ttl : Option Int) (t : Int) :
    (c.cache.length < c.max_size →
      ∀ k', k' ≠ k →
        lookupKey (c.put k v ttl t).cache k' = lookupKey c.cache k') ∧
    (c.cache.length ≥ c.max_size →
      ∀ k', k' ≠ k →
        lookupKey (c.put k v ttl t).cache k' = lookupKey c.cache.tail k') ∧
    (∀ k0 v0 rest, c.cache = (k0, v0) :: rest → c.cache.length ≥ c.max_size →
      k0 ≠ k → lookupKey rest k0 = none →
      lookupKey (c.put k v ttl t).cache k0 = none) := by
  refine ⟨?_, ?_, ?_⟩
  · intro hlt k' hk
    have hcond : ¬(c.cache.length ≥ c.max_size) := not_le.mpr hlt
    simp only [MemoryCache.put, if_neg hcond]
    exact lookupKey_updateAssoc_ne _ _ _ _ hk
  · intro hge k' hk
    simp only [MemoryCache.put, if_pos hge]
    exact lookupKey_updateAssoc_ne _ _ _ _ hk
  · intro k0 v0 rest hc hge hk hnone
    simp only [MemoryCache.put, if_pos hge]
    rw [lookupKey_updateAssoc_ne _ _ _ _ hk, hc]
    simpa using hnone

/-- Claim C3, witness: the amended theorem applied to a concrete store
at capacity where the overwritten key b is present and the oldest entry
a is evicted. -/
theorem C3_put_evicts_head_iff_at_capacity_witness :
    lookupKey ((⟨2, [("a", (some 1, none)), ("b", (some 2, none))], 0, 0⟩ :
        MemoryCache).put "b" (some 3) none 0).cache "a" = none :=
  (C3_put_evicts_head_iff_at_capacity
      ⟨2, [("a", (some 1, none)), ("b", (some 2, none))], 0, 0⟩
      "b" (some 3) none 0).2.2
    "a" (some 1, none) [("b", (some 2, none))] rfl (by decide) (by decide)
    (by decide)

/-- Claim C4, counterexample: put(None) immediately followed by get on
the same arguments returns a stale value from an unexpired disk record
instead of the just-written None, because the memory tier signals the
stored None with the same sentinel as a miss.  The state is reached
from a fresh manager via public operations only. -/
theorem C4_counterexample :
    (((((initManager 10).put (some 5) (some 1000000000) true ["x"] [] 100).clearMemory).put
        none none true ["x"] [] 200).get ["x"] [] 300).1 = some 5 ∧
    (some 5 : PyVal) ≠ none := by
  decide

/-- Claim C4 as amended: put immediately followed by get on the same
arguments returns the just-written data whenever the data is not None
(read-your-write via the synchronously updated memory tier); a written
None is observed only when no unexpired non-None disk record shadows
it. -/
theorem C4_read_your_write_some (m : Manager) (v : Nat) (ttl : Option Int)
    (p : Bool) (args : List String) (kw : List (String × String))
    (t1 t2 : Int) :
    ((m.put (some v) ttl p args kw t1).get args kw t2).1 = some v := by
  obtain ⟨e, he⟩ : ∃ e,
      lookupKey (m.put (some v) ttl p args kw t1).memory_cache.cache
        (cacheKey args kw) = some (some v, e) := by
    rw [Manager.put_memory]
    exact ⟨_, lookupKey_updateAssoc_self _ _ _⟩
  simp only [Manager.get, MemoryCache.get, he]
  simp

/-- Claim C8, counterexample: a put with requested ttl 0 stores a
memory-tier expiry of now + 3600, not now + 0, because the Python
truthiness test treats a zero ttl like an absent one; this refutes the
claim that the effective in-memory ttl is d whenever d is below 3600. -/
theorem C8_counterexample :
    lookupKey (((initManager 10).put (some 1) (some 0) true ["x"] [] 100).memory_cache.cache)
        (cacheKey ["x"] []) = some (some 1, some 3700) ∧
    ((100 : Int) + 0) ≠ 3700 := by
  decide

/-- Claim C8 as amended: every put stores the value in the memory tier
with a finite expiry of at most now + 3600; the effective in-memory ttl
is the requested d exactly when d is nonzero and below 3600, and 3600
otherwise, including when d is 0 or 7200 or when no ttl is given. -/
theorem C8_memory_ttl_ceiling (m : Manager) (data : PyVal) (ttl : Option Int)
    (p : Bool) (args : List String) (kw : List (String × String)) (t : Int) :
    ∃ e : Int,
      lookupKey (m.put data ttl p args kw t).memory_cache.cache (cacheKey args kw)
        = some (data, some e) ∧
      e ≤ t + 3600 ∧
      e = t + (match ttl with
               | some d => if d != 0 && d < 3600 then d else 3600
               | none => 3600) := by
  refine ⟨t + (match ttl with
               | some d => if d != 0 && d < 3600 then d else 3600
               | none => 3600), ?_, ?_, rfl⟩
  · rw [Manager.put_memory]
    simp only [MemoryCache.put, memory_ttl_truthy, if_pos]
    simpa using lookupKey_updateAssoc_self _ _ _
  · have hle : (match ttl with
        | some d => if d != 0 && d < 3600 then d else 3600
        | none => (3600 : Int)) ≤ 3600 := by
      match ttl with
      | none => exact le_refl _
      | some d =>
          by_cases h : d != 0 && d < 3600
          · simp only [h, if_pos rfl]
            have h2 := h
            rw [Bool.and_eq_true] at h2
            exact le_of_lt (by exact_mod_cast of_decide_eq_true h2.2)
          · simp [h]
    exact add_le_add_left hle t

/-- One memory-tier operation preserves the maximum size and keeps the
entry count within it (for a positive maximum). -/
theorem memOp_preserves_bound (op : MemOp) (c : MemoryCache)
    (hmax : 1 ≤ c.max_size) (hlen : c.cache.length ≤ c.max_size) :
    (op.apply c).max_size = c.max_size ∧
    (op.apply c).cache.length ≤ c.max_size := by
  cases op with
  | get k =>
      simp only [MemOp.apply, MemoryCache.get]
      cases hl : lookupKey c.cache k with
      | none => exact ⟨rfl, hlen⟩
      | some v =>
          refine ⟨rfl, ?_⟩
          have h1 : (eraseKey c.cache k).length + 1 ≤ c.cache.length :=
            length_eraseKey_succ_le c.cache k (by simp [hl])
          have h2 : ((eraseKey c.cache k ++ [(k, v)]).length)
              = (eraseKey c.cache k).length + 1 := by simp
          simp only [h2]
          exact le_trans h1 hlen
  | put k v ttl t =>
      simp only [MemOp.apply, MemoryCache.put]
      by_cases hcond : c.cache.length ≥ c.max_size
      · refine ⟨trivial, ?_⟩
        simp only [if_pos hcond]
        have h1 := length_updateAssoc_le c.cache.tail k
          (v, if truthy ttl then some (t + ttl.getD 0) else none)
        have h2 : c.cache.tail.length = c.cache.length - 1 :=
          List.length_tail _
        omega
      · refine ⟨trivial, ?_⟩
        simp only [if_neg hcond]
        have h1 := length_updateAssoc_le c.cache k
          (v, if truthy ttl then some (t + ttl.getD 0) else none)
        omega
  | clear =>
      simp only [MemOp.apply, MemoryCache.clear]
      exact ⟨trivial, by simp⟩

/-- Folding any operation sequence preserves the maximum size and the
entry-count bound. -/
theorem runMemOps_bound (ops : List MemOp) (c : MemoryCache)
    (hmax : 1 ≤ c.max_size) (hlen : c.cache.length ≤ c.max_size) :
    (runMemOps c ops).max_size = c.max_size ∧
    (runMemOps c ops).cache.length ≤ c.max_size := by
  induction ops generalizing c with
  | nil => exact ⟨rfl, hlen⟩
  | cons op rest ih =>
      obtain ⟨h1, h2⟩ := memOp_preserves_bound op c hmax hlen
      have hmax2 : 1 ≤ (op.apply c).max_size := h1 ▸ hmax
      have hlen2 : (op.apply c).cache.length ≤ (op.apply c).max_size := h1 ▸ h2
      obtain ⟨h3, h4⟩ := ih (op.apply c) hmax2 hlen2
      exact ⟨by simpa [runMemOps, h1] using h3, by
        simpa [runMemOps, h1] using h4⟩

/-- Claim C5: starting from a freshly constructed MemoryCache with
max_size at least 1, after any sequence of get, put and clear
operations the number of stored entries never exceeds max_size. -/
theorem C5_memory_size_invariant (maxSize : Nat) (h : 1 ≤ maxSize)
    (ops : List MemOp) :
    (runMemOps ⟨maxSize, [], 0, 0⟩ ops).cache.length ≤ maxSize :=
  (runMemOps_bound ops ⟨maxSize, [], 0, 0⟩ h (by simp)).2

/-- Claim C5, witness: a concrete run of five operations on a store of
maximum size 2 respects the bound. -/
theorem C5_memory_size_invariant_witness :
    (runMemOps ⟨2, [], 0, 0⟩
      [MemOp.put "a" (some 1) none 0, MemOp.put "b" (some 2) (some 9) 1,
       MemOp.put "c" (some 3) none 2, MemOp.get "b",
       MemOp.put "d" (some 4) none 3]).cache.length ≤ 2 :=
  C5_memory_size_invariant 2 (by decide)
    [MemOp.put "a" (some 1) none 0, MemOp.put "b" (some 2) (some 9) 1,
     MemOp.put "c" (some 3) none 2, MemOp.get "b",
     MemOp.put "d" (some 4) none 3]

/-- load_from_disk never changes the miss counter (only disk_hits can
move, and only upward). -/
theorem Manager.loadFromDisk_misses (m : Manager) (k : String) (t : Int) :
    (m.loadFromDisk k t).2.stats.misses = m.stats.misses := by
  unfold Manager.loadFromDisk
  split
  · rfl
  · cases hl : lookupKey m.disk k with
    | none => rfl
    | some f =>
        cases f with
        | corrupt => rfl
        | record data ca ttl =>
            cases ttl with
            | none => rfl
            | some tt =>
                by_cases hc : t > tt
                · simp [hc]
                · simp [hc]

/-- The statistics after load_from_disk are either unchanged or have
exactly disk_hits incremented by one. -/
theorem Manager.loadFromDisk_stats_shape (m : Manager) (k : String) (t : Int) :
    (m.loadFromDisk k t).2.stats = m.stats ∨
    (m.loadFromDisk k t).2.stats
      = { m.stats with disk_hits := m.stats.disk_hits + 1 } := by
  unfold Manager.loadFromDisk
  split
  · exact Or.inl rfl
  · cases hl : lookupKey m.disk k with
    | none => exact Or.inl rfl
    | some f =>
        cases f with
        | corrupt => exact Or.inl rfl
        | record data ca ttl =>
            cases ttl with
            | none => exact Or.inr rfl
            | some tt =>
                by_cases hc : t > tt
                · simp [hc]
                · simp [hc]

/-- When the file at the key is absent or a record carrying a None data
payload, load_from_disk returns the None sentinel. -/
theorem Manager.loadFromDisk_none_data (m : Manager) (k : String) (t : Int)
    (h : lookupKey m.disk k = none ∨
      ∃ c tt, lookupKey m.disk k = some (DiskFile.record none c tt)) :
    (m.loadFromDisk k t).1 = none := by
  unfold Manager.loadFromDisk
  split
  · rfl
  · rcases h with h | ⟨c, tt, h⟩
    · simp [h]
    · cases tt with
      | none => simp [h]
      | some tv =>
          by_cases hc : t > tv
          · simp [h, hc]
          · simp [h, hc]

/-- load_from_disk on an unexpired record with a ttl field returns its
data payload. -/
theorem Manager.loadFromDisk_hit (m : Manager) (k : String) (t : Int)
    (data : PyVal) (ca tv : Int)
    (hen : m.disk_cache_enabled = true)
    (hl : lookupKey m.disk k = some (DiskFile.record data ca (some tv)))
    (ht : t ≤ tv) :
    (m.loadFromDisk k t).1 = data := by
  unfold Manager.loadFromDisk
  simp [hen, hl, not_lt.mpr ht]

/-- load_from_disk on a corrupt file swallows the exception: the None
sentinel comes back and the manager state, the file included, is
untouched. -/
theorem Manager.loadFromDisk_corrupt (m : Manager) (k : String) (t : Int)
    (h : lookupKey m.disk k = some DiskFile.corrupt) :
    m.loadFromDisk k t = (none, m) := by
  unfold Manager.loadFromDisk
  split
  · rfl
  · simp [h]

/-- save_to_disk on a filesystem where writes raise leaves the disk
directory unchanged. -/
theorem Manager.saveToDisk_disk_writeFails (m : Manager) (k : String)
    (d : PyVal) (ttl : Option Int) (t : Int) (h : m.diskWriteFails = true) :
    (m.saveToDisk k d ttl t).disk = m.disk := by
  unfold Manager.saveToDisk
  split
  · rfl
  · simp [h]

/-- A get whose memory tier misses and whose disk tier holds an
unexpired record returns the data payload of that record. -/
theorem Manager.get_disk_hit (m : Manager) (args : List String)
    (kw : List (String × String)) (t : Int) (data : PyVal) (ca tv : Int)
    (hen : m.disk_cache_enabled = true)
    (hmem : lookupKey m.memory_cache.cache (cacheKey args kw) = none)
    (hl : lookupKey m.disk (cacheKey args kw)
      = some (DiskFile.record data ca (some tv)))
    (ht : t ≤ tv) :
    (m.get args kw t).1 = data := by
  unfold Manager.get
  simp only [MemoryCache.get, hmem]
  have hload : (({ m with memory_cache :=
      { m.memory_cache with misses := m.memory_cache.misses + 1 } } :
        Manager).loadFromDisk (cacheKey args kw) t).1 = data :=
    Manager.loadFromDisk_hit _ _ _ data ca tv hen hl ht
  simp only [Option.isSome_none, Bool.false_eq_true, if_false, hload]
  cases data with
  | none => simp
  | some v => simp [hload]

/-- Claim C2: with the disk directory holding one removable file (an
expired record or corrupted bytes) and one valid unexpired record
written by put, optimize_cache removes exactly the removable file; the
valid record remains on disk and its value is still delivered by a
subsequent get that misses in memory. -/
theorem C2_optimize_prunes_expired_only (m : Manager) (args : List String)
    (kw : List (String × String)) (ke : String) (fe : DiskFile)
    (data : PyVal) (ca tv tOpt tGet : Int)
    (hen : m.disk_cache_enabled = true)
    (hdisk : m.disk = [(ke, fe),
      (cacheKey args kw, DiskFile.record data ca (some tv))])
    (hbad : fe = DiskFile.corrupt ∨
      ∃ d c tt, fe = DiskFile.record d c (some tt) ∧ tOpt > tt)
    (hkeep : tOpt ≤ tv) (hkeep2 : tGet ≤ tv)
    (hmem : lookupKey m.memory_cache.cache (cacheKey args kw) = none) :
    (m.optimize tOpt).disk
      = [(cacheKey args kw, DiskFile.record data ca (some tv))] ∧
    ((m.optimize tOpt).get args kw tGet).1 = data := by
  have hkf : keepFile tOpt fe = false := by
    rcases hbad with h | ⟨d, c, tt, h, hlt⟩
    · rw [h]; rfl
    · rw [h]; simp [keepFile, hlt]
  have hkv : keepFile tOpt (DiskFile.record data ca (some tv)) = true := by
    simp [keepFile, not_lt.mpr hkeep]
  have hdisk2 : (m.optimize tOpt).disk
      = [(cacheKey args kw, DiskFile.record data ca (some tv))] := by
    simp [Manager.optimize, hdisk, List.filter_cons, hkf, hkv]
  refine ⟨hdisk2, ?_⟩
  exact Manager.get_disk_hit (m.optimize tOpt) args kw tGet data ca tv hen hmem
    (by rw [hdisk2]; simp [lookupKey]) hkeep2

/-- Claim C2, witness: a concrete directory with one expired record and
one valid record; after optimization only the valid record remains and
get returns its payload. -/
theorem C2_optimize_prunes_expired_only_witness :
    (({ initManager 5 with disk := [("k0", DiskFile.record (some 1) 0 (some 10)),
        (cacheKey ["q"] [], DiskFile.record (some 9) 50 (some 1000))] } :
          Manager).optimize 100).disk
      = [(cacheKey ["q"] [], DiskFile.record (some 9) 50 (some 1000))] ∧
    ((({ initManager 5 with disk := [("k0", DiskFile.record (some 1) 0 (some 10)),
        (cacheKey ["q"] [], DiskFile.record (some 9) 50 (some 1000))] } :
          Manager).optimize 100).get ["q"] [] 200).1 = some 9 :=
  C2_optimize_prunes_expired_only
    { initManager 5 with disk := [("k0", DiskFile.record (some 1) 0 (some 10)),
        (cacheKey ["q"] [], DiskFile.record (some 9) 50 (some 1000))] }
    ["q"] [] "k0" (DiskFile.record (some 1) 0 (some 10)) (some 9) 50 1000 100 200
    rfl rfl (Or.inr ⟨some 1, 0, 10, rfl, by decide⟩) (by decide) (by decide) rfl

/-- Claim C6: storage-tier failures never escape get or put: with a
corrupt (unreadable or undeserializable) file at the derived key and a
filesystem on which writes raise, get returns the None miss sentinel,
leaves the corrupt file in place (the whole disk directory unchanged)
and counts one miss, while put returns with the disk unchanged and the
memory tier already holding the new value. -/
theorem C6_storage_failures_swallowed (m : Manager) (args : List String)
    (kw : List (String × String)) (data : PyVal) (ttl : Option Int)
    (t1 t2 : Int)
    (hcorrupt : lookupKey m.disk (cacheKey args kw) = some DiskFile.corrupt)
    (hmem : lookupKey m.memory_cache.cache (cacheKey args kw) = none)
    (hfail : m.diskWriteFails = true) :
    ((m.get args kw t1).1 = none ∧
     (m.get args kw t1).2.disk = m.disk ∧
     (m.get args kw t1).2.stats.misses = m.stats.misses + 1) ∧
    ((m.put data ttl true args kw t2).disk = m.disk ∧
     ∃ e, lookupKey (m.put data ttl true args kw t2).memory_cache.cache
       (cacheKey args kw) = some (data, e)) := by
  constructor
  · unfold Manager.get
    simp only [MemoryCache.get, hmem]
    have hload := Manager.loadFromDisk_corrupt
      ({ m with memory_cache :=
        { m.memory_cache with misses := m.memory_cache.misses + 1 } } : Manager)
      (cacheKey args kw) t1 hcorrupt
    simp only [Option.isSome_none, Bool.false_eq_true, if_false, hload]
    simp
  · constructor
    · unfold Manager.put
      by_cases hpt : (true && truthy ttl) = true
      · simp only [hpt, if_pos]
        exact Manager.saveToDisk_disk_writeFails _ _ _ _ _ hfail
      · simp [hpt]
    · rw [Manager.put_memory]
      exact ⟨_, lookupKey_updateAssoc_self _ _ _⟩

/-- Claim C6, witness: a concrete manager with a corrupt file at the
derived key and failing writes; get misses without touching the disk
and put lands in memory with the disk unchanged. -/
theorem C6_storage_failures_swallowed_witness :
    ((({ initManager 3 with
          disk := [(cacheKey ["w"] [], DiskFile.corrupt)]
          diskWriteFails := true } : Manager).get ["w"] [] 10).1 = none ∧
     (({ initManager 3 with
          disk := [(cacheKey ["w"] [], DiskFile.corrupt)]
          diskWriteFails := true } : Manager).get ["w"] [] 10).2.disk
       = [(cacheKey ["w"] [], DiskFile.corrupt)] ∧
     (({ initManager 3 with
          disk := [(cacheKey ["w"] [], DiskFile.corrupt)]
          diskWriteFails := true } : Manager).get ["w"] [] 10).2.stats.misses
       = 0 + 1) ∧
    ((({ initManager 3 with
          disk := [(cacheKey ["w"] [], DiskFile.corrupt)]
          diskWriteFails := true } : Manager).put (some 4) (some 60) true
          ["w"] [] 20).disk = [(cacheKey ["w"] [], DiskFile.corrupt)] ∧
     ∃ e, lookupKey (({ initManager 3 with
          disk := [(cacheKey ["w"] [], DiskFile.corrupt)]
          diskWriteFails := true } : Manager).put (some 4) (some 60) true
          ["w"] [] 20).memory_cache.cache (cacheKey ["w"] [])
       = some (some 4, e)) :=
  C6_storage_failures_swallowed
    { initManager 3 with
        disk := [(cacheKey ["w"] [], DiskFile.corrupt)]
        diskWriteFails := true }
    ["w"] [] (some 4) (some 60) 10 20 (by simp [lookupKey]) rfl rfl

/-- Sorting with the keyword order is invariant under permutation of
the input items: two permuted keyword lists sort to the same list,
because the order is total and antisymmetric on (name, value) pairs. -/
theorem insertionSort_kwLe_perm_invariant (kw1 kw2 : List (String × String))
    (h : kw1.Perm kw2) :
    List.insertionSort kwLe kw1 = List.insertionSort kwLe kw2 :=
  List.eq_of_perm_of_sorted
    ((List.perm_insertionSort kwLe kw1).trans
      (h.trans (List.perm_insertionSort kwLe kw2).symm))
    (List.sorted_insertionSort kwLe kw1)
    (List.sorted_insertionSort kwLe kw2)

/-- A get whose memory tier hands back the None sentinel and whose disk
tier holds, at the derived key, either nothing or a record with a None
payload, returns the None sentinel and counts one manager-level miss. -/
theorem Manager.get_miss_of_none (m : Manager) (args : List String)
    (kw : List (String × String)) (t : Int)
    (hmem1 : (m.memory_cache.get (cacheKey args kw)).1 = none)
    (hdisk : lookupKey m.disk (cacheKey args kw) = none ∨
      ∃ c tt, lookupKey m.disk (cacheKey args kw)
        = some (DiskFile.record none c tt)) :
    (m.get args kw t).1 = none ∧
    (m.get args kw t).2.stats.misses = m.stats.misses + 1 := by
  unfold Manager.get
  simp only [hmem1, Option.isSome_none, Bool.false_eq_true, if_false]
  have hload := Manager.loadFromDisk_none_data
    ({ m with memory_cache := (m.memory_cache.get (cacheKey args kw)).2 })
    (cacheKey args kw) t hdisk
  simp only [hload, Option.isSome_none, Bool.false_eq_true, if_false]
  have hm := Manager.loadFromDisk_misses
    ({ m with memory_cache := (m.memory_cache.get (cacheKey args kw)).2 })
    (cacheKey args kw) t
  exact ⟨by trivial, by simp [hm]⟩

/-- On a fresh manager, a put followed by a get that derives the same
key returns the stored data for every payload, None included: a stored
None misses in the memory tier, but the only possible disk record is
the one the put just wrote, whose payload is the same None. -/
theorem init_put_get_same_key (maxItems : Nat) (x : PyVal) (ttl : Option Int)
    (p : Bool) (args : List String) (kw kw' : List (String × String))
    (hk : cacheKey args kw' = cacheKey args kw) (t1 t2 : Int) :
    (((initManager maxItems).put x ttl p args kw t1).get args kw' t2).1 = x := by
  obtain ⟨e, he⟩ : ∃ e,
      lookupKey ((initManager maxItems).put x ttl p args kw t1).memory_cache.cache
        (cacheKey args kw) = some (x, e) := by
    rw [Manager.put_memory]
    exact ⟨_, lookupKey_updateAssoc_self _ _ _⟩
  cases x with
  | some v =>
      simp only [Manager.get, MemoryCache.get, hk, he]
      simp
  | none =>
      have hmem1 : (((initManager maxItems).put none ttl p args kw
          t1).memory_cache.get (cacheKey args kw')).1 = none := by
        rw [hk]
        simp [MemoryCache.get, he]
      have hdisk : lookupKey
          ((initManager maxItems).put none ttl p args kw t1).disk
            (cacheKey args kw') = none ∨
          ∃ c tt, lookupKey
            ((initManager maxItems).put none ttl p args kw t1).disk
              (cacheKey args kw')
            = some (DiskFile.record none c tt) := by
        rw [hk]
        simp only [Manager.put]
        by_cases hpt : (p && truthy ttl) = true
        · rw [if_pos hpt]
          unfold Manager.saveToDisk
          split
          · exact Or.inl rfl
          · split
            · exact Or.inl rfl
            · exact Or.inr ⟨t1, _, lookupKey_updateAssoc_self _ _ _⟩
        · rw [if_neg hpt]
          exact Or.inl rfl
  
      exact (Manager.get_miss_of_none _ args kw' t2 hmem1 hdisk).1

/-- Claim C7: the derived cache key is a deterministic function of the
argument values alone; permuting the keyword arguments leaves the key
unchanged, so a put under one keyword order followed by a get under
another addresses the same entry and returns the stored value. -/
theorem C7_key_stable_under_kwarg_order (args : List String)
    (kw1 kw2 : List (String × String)) (hperm : kw1.Perm kw2)
    (maxItems : Nat) (x : PyVal) (ttl : Option Int) (p : Bool)
    (t1 t2 : Int) :
    cacheKey args kw1 = cacheKey args kw2 ∧
    (((initManager maxItems).put x ttl p args kw1 t1).get args kw2 t2).1 = x := by
  have hkey : cacheKey args kw1 = cacheKey args kw2 := by
    unfold cacheKey cacheKeyData
    rw [insertionSort_kwLe_perm_invariant kw1 kw2 hperm]
  exact ⟨hkey, init_put_get_same_key maxItems x ttl p args kw1 kw2 hkey.symm t1 t2⟩

/-- Claim C7, witness: the two keyword orders a=1,b=2 and b=2,a=1 give
the same key, and the stored value round-trips across the reordering. -/
theorem C7_key_stable_under_kwarg_order_witness :
    cacheKey ["x"] [("a", "1"), ("b", "2")]
      = cacheKey ["x"] [("b", "2"), ("a", "1")] ∧
    (((initManager 6).put (some 7) (some 30) true ["x"]
        [("a", "1"), ("b", "2")] 100).get ["x"]
        [("b", "2"), ("a", "1")] 101).1 = some 7 :=
  C7_key_stable_under_kwarg_order ["x"] [("a", "1"), ("b", "2")]
    [("b", "2"), ("a", "1")] (by decide) 6 (some 7) (some 30) true 100 101

/-- Claim C9: a stored None is indistinguishable from absence at the
public interface: with no pre-existing disk record for the key, a put
of None followed by a get for the same arguments returns the None
sentinel and increments the manager miss counter, the lookup having
fallen through the memory tier. -/
theorem C9_put_none_reports_miss (m : Manager) (ttl : Option Int) (p : Bool)
    (args : List String) (kw : List (String × String)) (t1 t2 : Int)
    (hdisk : lookupKey m.disk (cacheKey args kw) = none) :
    ((m.put none ttl p args kw t1).get args kw t2).1 = none ∧
    ((m.put none ttl p args kw t1).get args kw t2).2.stats.misses
      = m.stats.misses + 1 := by
  obtain ⟨e, he⟩ : ∃ e,
      lookupKey (m.put none ttl p args kw t1).memory_cache.cache
        (cacheKey args kw) = some (none, e) := by
    rw [Manager.put_memory]
    exact ⟨_, lookupKey_updateAssoc_self _ _ _⟩
  have hmem1 : ((m.put none ttl p args kw t1).memory_cache.get
      (cacheKey args kw)).1 = none := by
    simp [MemoryCache.get, he]
  have hdisk2 : lookupKey (m.put none ttl p args kw t1).disk
        (cacheKey args kw) = none ∨
      ∃ c tt, lookupKey (m.put none ttl p args kw t1).disk (cacheKey args kw)
        = some (DiskFile.record none c tt) := by
    simp only [Manager.put]
    by_cases hpt : (p && truthy ttl) = true
    · rw [if_pos hpt]
      unfold Manager.saveToDisk
      split
      · exact Or.inl hdisk
      · split
        · exact Or.inl hdisk
        · exact Or.inr ⟨t1, _, lookupKey_updateAssoc_self _ _ _⟩
    · rw [if_neg hpt]
      exact Or.inl hdisk
  obtain ⟨h1, h2⟩ := Manager.get_miss_of_none
    (m.put none ttl p args kw t1) args kw t2 hmem1 hdisk2
  rw [Manager.put_stats] at h2
  exact ⟨h1, h2⟩

/-- Claim C9, witness: on a fresh manager, putting None and reading it
back misses and bumps the miss counter from zero to one. -/
theorem C9_put_none_reports_miss_witness :
    (((initManager 4).put none (some 50) true ["z"] [] 10).get ["z"] [] 11).1
      = none ∧
    (((initManager 4).put none (some 50) true ["z"] [] 10).get
      ["z"] [] 11).2.stats.misses = 0 + 1 :=
  C9_put_none_reports_miss (initManager 4) (some 50) true ["z"] [] 10 11 rfl

/-- load_from_disk never touches the evictions counter and never
decreases any manager counter. -/
theorem Manager.loadFromDisk_stats_mono (m : Manager) (k : String) (t : Int) :
    (m.loadFromDisk k t).2.stats.evictions = m.stats.evictions ∧
    m.stats.memory_hits ≤ (m.loadFromDisk k t).2.stats.memory_hits ∧
    m.stats.disk_hits ≤ (m.loadFromDisk k t).2.stats.disk_hits ∧
    m.stats.misses ≤ (m.loadFromDisk k t).2.stats.misses := by
  rcases Manager.loadFromDisk_stats_shape m k t with hs | hs
  · rw [hs]
    exact ⟨rfl, le_refl _, le_refl _, le_refl _⟩
  · rw [hs]
    exact ⟨rfl, le_refl _, Nat.le_succ _, le_refl _⟩

/-- Claim C10: clear_memory and clear_all reset only the memory-tier
hit and miss counters; the manager counters memory_hits, disk_hits,
misses and evictions are untouched by them, no public operation ever
decreases (resets) any of them, and no operation ever changes the
evictions counter. -/
theorem C10_manager_counters_frame (m : Manager) (op : Op) :
    (m.clearMemory.stats = m.stats ∧ m.clearAll.stats = m.stats ∧
     m.clearMemory.memory_cache.hits = 0 ∧
     m.clearMemory.memory_cache.misses = 0 ∧
     m.clearAll.memory_cache.hits = 0 ∧
     m.clearAll.memory_cache.misses = 0) ∧
    ((op.apply m).stats.evictions = m.stats.evictions ∧
     m.stats.memory_hits ≤ (op.apply m).stats.memory_hits ∧
     m.stats.disk_hits ≤ (op.apply m).stats.disk_hits ∧
     m.stats.misses ≤ (op.apply m).stats.misses) := by
  refine ⟨⟨rfl, rfl, rfl, rfl, rfl, rfl⟩, ?_⟩
  cases op with
  | get args kw t =>
      simp only [Op.apply, Manager.get]
      by_cases h1 : ((m.memory_cache.get (cacheKey args kw)).1).isSome = true
      · rw [if_pos h1]
        exact ⟨rfl, Nat.le_succ _, le_refl _, le_refl _⟩
      · rw [if_neg h1]
        obtain ⟨ha, hb, hc, hd⟩ := Manager.loadFromDisk_stats_mono
          ({ m with memory_cache := (m.memory_cache.get (cacheKey args kw)).2 })
          (cacheKey args kw) t
        by_cases h2 : ((({ m with memory_cache :=
            (m.memory_cache.get (cacheKey args kw)).2 } :
              Manager).loadFromDisk (cacheKey args kw) t).1).isSome = true
        · rw [if_pos h2]
          exact ⟨ha, hb, hc, hd⟩
        · rw [if_neg h2]
          exact ⟨ha, hb, hc, Nat.le_succ_of_le hd⟩
  | put data ttl p args kw t =>
      simp only [Op.apply]
      rw [Manager.put_stats]
      exact ⟨rfl, le_refl _, le_refl _, le_refl _⟩
  | clearMemory => exact ⟨rfl, le_refl _, le_refl _, le_refl _⟩
  | clearAll => exact ⟨rfl, le_refl _, le_refl _, le_refl _⟩
  | optimize t => exact ⟨rfl, le_refl _, le_refl _, le_refl _⟩
  | getCacheStats => exact ⟨rfl, le_refl _, le_refl _, le_refl _⟩
